import Mathlib

/-!
Verification of the `gogames/session` session manager (`session.go`, `lru.go`).

The Go code is shallowly embedded: the mutable `Session` struct becomes a
record threaded explicitly through each operation, the Go map
`map[string]SessionStore` becomes an association list over `String` keys,
`container/list` inside the `lru` becomes a plain list with the front at the
head and the back at the end (the `cache` field of the Go `lru` is only an
O(1) index into the list, so key membership in the list models it), and
`time.Time` becomes `Int` (a timestamp; `t.Sub(v) > lifeTime` becomes
`t - v > lifeTime`).  Store handles (`SessionStore` values) are an abstract
state type `S` with an explicit record of operations `StoreOps`; Go errors
become `Option E` (`none` = nil).  `crypto/rand` is modelled by a stream of
read outcomes (`none` = a failed read that cannot fill the buffer), and the
unbounded retry loop of `newSId` by fuel: a `none` result of the model means
the Go loop has not returned within the given number of attempts.
-/

namespace SessionRepo

/-! ### Association lists standing for Go maps -/

/-- Lookup in an association list, as Go's `m[k]` (comma-ok form). -/
def lookupA {K : Type} [DecidableEq K] {S : Type} : List (K × S) → K → Option S
  | [], _ => none
  | e :: rest, k => if e.1 = k then some e.2 else lookupA rest k

/-- Go's `m[k] = v`: replace the binding if the key is present, extend
otherwise. -/
def insertA {K : Type} [DecidableEq K] {S : Type} : List (K × S) → K → S → List (K × S)
  | [], k, v => [(k, v)]
  | e :: rest, k, v => if e.1 = k then (k, v) :: rest else e :: insertA rest k v

/-- Go's `delete(m, k)`. -/
def eraseA {K : Type} [DecidableEq K] {S : Type} (l : List (K × S)) (k : K) :
    List (K × S) :=
  l.filter (fun e => decide (e.1 ≠ k))

/-- Key membership, Go's `_, ok := m[k]`. -/
def containsA {K : Type} [DecidableEq K] {S : Type} (l : List (K × S)) (k : K) : Bool :=
  (lookupA l k).isSome

/-! ### The `lru` structure (`lru.go`)

`lru` keeps a doubly linked list of `element{key, val}` pairs plus a
`cache : map[interface{}]*list.Element` used only for O(1) removal; the list
is modelled front-to-back, and `cache` membership coincides with key
membership in the list (the Go code keeps them in lock-step inside `put` and
`remove`). -/

structure lru (K V : Type) where
  l : List (K × V)

/-- Go `newLRU()`. -/
def lru.new {K V : Type} : lru K V := ⟨[]⟩

/-- Go `lru.length`. -/
def lru.length {K V : Type} (l : lru K V) : Nat := l.l.length

/-- The `cache[k]` hit test: the `cache` map indexes exactly the keys of the
list, so it is modelled by key lookup in the list. -/
def lru.containsK {K V : Type} [DecidableEq K] (l : lru K V) (k : K) : Bool :=
  containsA l.l k

/-- Go `lru.put`: if the key exists, overwrite its value and move it to the
back; otherwise push a new element to the back. -/
def lru.put {K V : Type} [DecidableEq K] (l : lru K V) (k : K) (v : V) : lru K V :=
  if l.containsK k then
    ⟨l.l.filter (fun e => decide (e.1 ≠ k)) ++ [(k, v)]⟩
  else
    ⟨l.l ++ [(k, v)]⟩

/-- One step of `lru.remove`: drop the element of key `k` if present. -/
def lru.removeOne {K V : Type} [DecidableEq K] (l : lru K V) (k : K) : lru K V :=
  if l.containsK k then ⟨l.l.filter (fun e => decide (e.1 ≠ k))⟩ else l

/-- Go `lru.remove(ks...)`: remove each given key, absent keys ignored. -/
def lru.remove {K V : Type} [DecidableEq K] (l : lru K V) (ks : List K) : lru K V :=
  ks.foldl lru.removeOne l

/-- The front-to-back scan loop of `lru.findExpiredItems`. -/
def findLoop {K V : Type} (p : V → Bool) : List (K × V) → List K
  | [] => []
  | e :: rest => if p e.2 then e.1 :: findLoop p rest else findLoop p rest

/-- Go `lru.findExpiredItems(isExpired)`: iterate from front to back and collect
the keys whose value satisfies the predicate. -/
def lru.findExpiredItems {K V : Type} (l : lru K V) (p : V → Bool) : List K :=
  findLoop p l.l

/-! ### Session id minting (`randSId`, `newSId`)

`randSId` makes one `rand.Read` into a `_SID_LENGTH`-byte buffer and hex
encodes it, returning `""` when the read fails short; `newSId` retries until
the candidate is non-empty and collides with no live session id.  The stream
`gen` gives the outcome of the `i`-th `rand.Read` (`none` = failure);
`crypto/rand` guarantees a successful read fills the whole buffer, which
appears as a length hypothesis where it matters. -/

/-- Go `_SID_LENGTH = 1 << 4`. -/
def SID_LENGTH : Nat := 16

/-- One hex digit of `encoding/hex`. -/
def hexDigit (n : Nat) : Char :=
  if n < 10 then Char.ofNat (48 + n) else Char.ofNat (87 + n)

/-- Go `hex.EncodeToString`: high nibble then low nibble for each byte. -/
def hexEncode (bs : List Nat) : String :=
  String.mk (bs.foldr (fun b acc => hexDigit (b / 16 % 16) :: hexDigit (b % 16) :: acc) [])

/-- Go `randSId`: hex encode a fresh random buffer, or `""` when the generator
cannot fill it. -/
def randSId (r : Option (List Nat)) : String :=
  match r with
  | none => ""
  | some b => hexEncode b

/-- Go `newSId`, with fuel bounding the number of retry iterations: keep drawing
until the candidate is non-empty and not a live key.  `none` means the Go
loop is still spinning after `fuel` draws. -/
def newSId (keys : List String) (gen : Nat → Option (List Nat)) :
    Nat → Nat → Option String
  | 0, _ => none
  | fuel + 1, i =>
    let sid := randSId (gen i)
    if sid ≠ "" then
      if keys.contains sid then newSId keys gen fuel (i + 1)
      else some sid
    else
      newSId keys gen fuel (i + 1)

/-! ### Store handles (`SessionStore`)

The `SessionStore` interface of `session.go`; a handle's state is an abstract
type `S`, each mutating method returning the successor state and its error. -/

structure StoreOps (S V E : Type) where
  set : S → String → V → S × Option E
  get : S → String → Option V
  del : S → String → S × Option E
  update : S → S × Option E
  expire : S → S × Option E

/-! ### The `Session` manager (`session.go`) -/

/-- The `Session` struct: the live-session map, the LRU index, and the
closed flag.  (Locks, the drain channel and the conf string carry no
sequential state.) -/
structure Session (S : Type) where
  sessions : List (String × S)
  lruIdx : lru String Int
  isClosed : Bool

variable {S V E : Type}

/-- Go `NewSession`: pre-populate the map and the LRU index from the backend's
`Init()` mapping (modelled as a list of `(sessionId, lastUpdate)` pairs). -/
def Session.new (provider : String → S) (initList : List (String × Int)) : Session S :=
  { sessions := initList.foldl (fun acc p => insertA acc p.1 (provider p.1)) []
    lruIdx := initList.foldl (fun acc p => acc.put p.1 p.2) lru.new
    isClosed := false }

/-- Go `Close`: mark the manager closed (the drain loop and the stop signal
carry no sequential state). -/
def Session.close (m : Session S) : Session S :=
  { m with isClosed := true }

/-- Go `Get(sid, key)`: empty id short-circuits; otherwise read the handle under
the read lock.  The method performs no write to the manager, so the state
component of the result is the receiver. -/
def Session.opGet (ops : StoreOps S V E) (m : Session S) (sid key : String) :
    Session S × Option V :=
  if sid = "" then (m, none)
  else
    match lookupA m.sessions sid with
    | some st => (m, ops.get st key)
    | none => (m, none)

/-- Go `Set(sid, key, val)`: reuse the live handle when `sid` is non-empty and
live, otherwise mint a fresh id and a fresh handle; always touch the LRU
entry of the returned id.  Closed manager: no-op returning zero values.
`none` means the minting loop never completed within `fuel` draws. -/
def Session.opSet (ops : StoreOps S V E) (provider : String → S)
    (gen : Nat → Option (List Nat)) (fuel : Nat) (now : Int)
    (m : Session S) (sid key : String) (v : V) :
    Option (Session S × String × Option E) :=
  if m.isClosed then some (m, "", none)
  else
    match if sid ≠ "" then lookupA m.sessions sid else none with
    | some st =>
      let r := ops.set st key v
      some ({ m with
                sessions := insertA m.sessions sid r.1
                lruIdx := m.lruIdx.put sid now }, sid, r.2)
    | none =>
      match newSId (m.sessions.map Prod.fst) gen fuel 0 with
      | none => none
      | some nsid =>
        let r := ops.set (provider nsid) key v
        some ({ m with
                  sessions := insertA m.sessions nsid r.1
                  lruIdx := m.lruIdx.put nsid now }, nsid, r.2)

/-- Go `Delete(sid, key)`: empty id short-circuits; closed manager no-op; else
delegate to the live handle (unknown id: silent no-op). -/
def Session.opDelete (ops : StoreOps S V E) (m : Session S) (sid key : String) :
    Session S × Option E :=
  if sid = "" then (m, none)
  else if m.isClosed then (m, none)
  else
    match lookupA m.sessions sid with
    | some st =>
      let r := ops.del st key
      ({ m with sessions := insertA m.sessions sid r.1 }, r.2)
    | none => (m, none)

/-- Go `Update(sid)`: empty id short-circuits; closed manager no-op; else call
the handle's `Update` (unknown id: silent no-op).  The LRU index is not
touched. -/
def Session.opUpdate (ops : StoreOps S V E) (m : Session S) (sid : String) :
    Session S × Option E :=
  if sid = "" then (m, none)
  else if m.isClosed then (m, none)
  else
    match lookupA m.sessions sid with
    | some st =>
      let r := ops.update st
      ({ m with sessions := insertA m.sessions sid r.1 }, r.2)
    | none => (m, none)

/-- Go `Expire(sid)`: empty id short-circuits; closed manager no-op; else call
the live handle's `Expire` (if any) and remove the id from the map and the
LRU index unconditionally, reporting the handle's error. -/
def Session.opExpire (ops : StoreOps S V E) (m : Session S) (sid : String) :
    Session S × Option E :=
  if sid = "" then (m, none)
  else if m.isClosed then (m, none)
  else
    let err := match lookupA m.sessions sid with
      | some st => (ops.expire st).2
      | none => none
    ({ m with
        sessions := eraseA m.sessions sid
        lruIdx := m.lruIdx.removeOne sid }, err)

/-- The `Flush` range loop: expire each live session in iteration order,
deleting it from the map and the LRU index, stopping at the first backend
error. -/
def flushLoop (ops : StoreOps S V E) :
    List (String × S) → List (String × S) → lru String Int →
    List (String × S) × lru String Int × Option E
  | [], sess, l => (sess, l, none)
  | e :: rest, sess, l =>
    match (ops.expire e.2).2 with
    | some err => (sess, l, some err)
    | none => flushLoop ops rest (eraseA sess e.1) (l.removeOne e.1)

/-- Go `Flush()`: closed manager no-op; else run the range loop over the live
map. -/
def Session.opFlush (ops : StoreOps S V E) (m : Session S) : Session S × Option E :=
  if m.isClosed then (m, none)
  else
    let r := flushLoop ops m.sessions m.sessions m.lruIdx
    ({ m with sessions := r.1, lruIdx := r.2.1 }, r.2.2)

/-- One tick of the `gc` goroutine at time `t`: collect the ids whose
last-touch time is strictly older than `sessionLifeTime`, remove them from
the LRU index, then expire each handle (its error is discarded) and delete
it from the map. -/
def Session.gcTick (ops : StoreOps S V E) (lifeTime t : Int) (m : Session S) : Session S :=
  if m.isClosed then m
  else
    let sids := m.lruIdx.findExpiredItems (fun v => decide (t - v > lifeTime))
    { m with
      lruIdx := m.lruIdx.remove sids
      sessions := sids.foldl (fun acc sid =>
        (match lookupA acc sid with
         | some st => (fun _ => eraseA acc sid) (ops.expire st).2
         | none => eraseA acc sid)) m.sessions }

/-! ### The lock-step invariant and the reachable states -/

/-- The lock-step property of the spec: a session id is a key of the
live-session map iff it is a key of the LRU index. -/
def inSync {S : Type} (m : Session S) : Prop :=
  ∀ x, containsA m.sessions x = true ↔ m.lruIdx.containsK x = true

/-- The reachable states of a manager: the constructed state followed by any
sequence of the public operations and sweep ticks. -/
inductive Reachable {S V E : Type} (ops : StoreOps S V E) (provider : String → S) :
    Session S → Prop
  | init (initList : List (String × Int)) :
      Reachable ops provider (Session.new provider initList)
  | step_set {m m' : Session S} {rsid : String} {err : Option E}
      (gen : Nat → Option (List Nat)) (fuel : Nat) (now : Int)
      (sid key : String) (v : V) (hm : Reachable ops provider m)
      (h : Session.opSet ops provider gen fuel now m sid key v = some (m', rsid, err)) :
      Reachable ops provider m'
  | step_delete {m : Session S} (sid key : String) (hm : Reachable ops provider m) :
      Reachable ops provider (Session.opDelete ops m sid key).1
  | step_update {m : Session S} (sid : String) (hm : Reachable ops provider m) :
      Reachable ops provider (Session.opUpdate ops m sid).1
  | step_expire {m : Session S} (sid : String) (hm : Reachable ops provider m) :
      Reachable ops provider (Session.opExpire ops m sid).1
  | step_flush {m : Session S} (hm : Reachable ops provider m) :
      Reachable ops provider (Session.opFlush ops m).1
  | step_gc {m : Session S} (lifeTime t : Int) (hm : Reachable ops provider m) :
      Reachable ops provider (Session.gcTick ops lifeTime t m)
  | step_close {m : Session S} (hm : Reachable ops provider m) :
      Reachable ops provider m.close

/-! ### Concrete instances used to exercise the theorems -/

/-- A model key-value backend: a handle's state is its key-value data, every
operation succeeds (spec §4.3: `Set` stores, `Get` returns value-or-absent). -/
def memOps : StoreOps (List (String × Nat)) Nat Unit :=
  { set := fun st k v => (insertA st k v, none)
    get := fun st k => lookupA st k
    del := fun st k => (eraseA st k, none)
    update := fun st => (st, none)
    expire := fun st => (st, none) }

/-- The factory of the model backend: a fresh handle holds no data. -/
def memProvider : String → List (String × Nat) := fun _ => []

/-- A backend whose handle state is a flag; `Expire` reports an error exactly
when the flag is set. -/
def flagOps : StoreOps Bool Nat Unit :=
  { set := fun st _ _ => (st, none)
    get := fun _ _ => none
    del := fun st _ => (st, none)
    update := fun st => (st, none)
    expire := fun st => (st, if st then some () else none) }

/-- A random source that always succeeds with a zero-filled buffer. -/
def genZeros : Nat → Option (List Nat) := fun _ => some (List.replicate SID_LENGTH 0)

/-- A random source that always fails to fill the buffer. -/
def genFail : Nat → Option (List Nat) := fun _ => none

/-- A freshly constructed manager over the model backend, no recovered
sessions. -/
def mEmpty : Session (List (String × Nat)) := ⟨[], lru.new, false⟩

/-- The hex rendering of the zero-filled buffer. -/
def sidZeros : String := "00000000000000000000000000000000"

/-- An open manager with one live session `"a"` whose handle holds `k ↦ 7`,
LRU touch time 0. -/
def mOne : Session (List (String × Nat)) := ⟨[("a", [("k", 7)])], ⟨[("a", 0)]⟩, false⟩

/-- A closed manager with one live session `"a"` whose handle holds `k ↦ 7`. -/
def mClosed : Session (List (String × Nat)) := ⟨[("a", [("k", 7)])], ⟨[("a", 0)]⟩, true⟩

/-- An open manager over the flag backend: session `"b"` will fail to expire,
`"a"` and `"c"` expire cleanly. -/
def mFlags : Session Bool := ⟨[("a", false), ("b", true), ("c", false)], ⟨[("a", 0), ("b", 1), ("c", 2)]⟩, false⟩

/-- An open manager over the flag backend with a single live session whose
`Expire` reports an error. -/
def mFlag1 : Session Bool := ⟨[("a", true)], ⟨[("a", 0)]⟩, false⟩

/-- The LRU scenario of the spec (and of `lru_test.go`), with times in
milliseconds: five ids put with touch time 0 (five seconds and a beat before
"now" = 5001), four ids put at "now", then three of the old ids re-put at
"now". -/
def lruScenario : lru String Int :=
  [("sessionid1", (0 : Int)), ("sessionid2", 0), ("sessionid3", 0),
   ("sessionid4", 0), ("sessionid5", 0), ("sessionid6", 5001),
   ("sessionid7", 5001), ("sessionid8", 5001), ("sessionid9", 5001),
   ("sessionid3", 5001), ("sessionid1", 5001),
   ("sessionid4", 5001)].foldl (fun a p => a.put p.1 p.2) lru.new

/-! ### Basic lemmas on the map and LRU models -/

section Lemmas

variable {K : Type} [DecidableEq K] {W : Type}

theorem lookupA_insertA (l : List (K × W)) (k x : K) (v : W) :
    lookupA (insertA l k v) x = if x = k then some v else lookupA l x := by
  induction l with
  | nil =>
    by_cases hx : x = k
    · subst hx; simp [insertA, lookupA]
    · have hkx : ¬ (k = x) := fun h => hx h.symm
      simp [insertA, lookupA, hx, hkx]
  | cons e rest ih =>
    by_cases he : e.1 = k
    · by_cases hx : x = k
      · subst hx; simp [insertA, lookupA, he]
      · have hkx : ¬ (k = x) := fun h => hx h.symm
        have hex : ¬ (e.1 = x) := fun h => hkx (he.symm.trans h)
        simp [insertA, lookupA, he, hx, hkx, hex]
    · by_cases hx : x = k
      · subst hx
        simp [insertA, lookupA, he, ih]
      · simp [insertA, lookupA, he, hx, ih]

theorem lookupA_eraseA (l : List (K × W)) (k x : K) :
    lookupA (eraseA l k) x = if x = k then none else lookupA l x := by
  induction l with
  | nil => simp [eraseA, lookupA]
  | cons e rest ih =>
    by_cases he : e.1 = k
    · have hrw : eraseA (e :: rest) k = eraseA rest k := by
        simp [eraseA, List.filter, he]
      rw [hrw, ih]
      by_cases hx : x = k
      · simp [hx]
      · have : ¬ (e.1 = x) := fun h => hx (by rw [← h, he])
        simp [lookupA, hx, this]
    · have hrw : eraseA (e :: rest) k = e :: eraseA rest k := by
        simp [eraseA, List.filter, he]
      rw [hrw]
      by_cases hex : e.1 = x
      · have hx : ¬ (x = k) := fun h => he (by rw [hex, h])
        simp [lookupA, hex, hx]
      · simp [lookupA, hex, ih]

theorem containsA_insertA (l : List (K × W)) (k x : K) (v : W) :
    containsA (insertA l k v) x = true ↔ (x = k ∨ containsA l x = true) := by
  by_cases hx : x = k <;> simp [containsA, lookupA_insertA, hx]

theorem containsA_eraseA (l : List (K × W)) (k x : K) :
    containsA (eraseA l k) x = true ↔ (¬ x = k ∧ containsA l x = true) := by
  by_cases hx : x = k <;> simp [containsA, lookupA_eraseA, hx]

theorem containsA_lookupA_some (l : List (K × W)) (x : K) (st : W)
    (h : lookupA l x = some st) : containsA l x = true := by
  simp [containsA, h]

theorem lookupA_append_single (xs : List (K × W)) (k x : K) (v : W) :
    lookupA (xs ++ [(k, v)]) x =
      match lookupA xs x with
      | some w => some w
      | none => if k = x then some v else none := by
  induction xs with
  | nil => simp [lookupA]
  | cons e rest ih =>
    by_cases he : e.1 = x <;> simp [lookupA, he, ih]

theorem lookupA_filter_ne (xs : List (K × W)) (k x : K) :
    lookupA (xs.filter (fun e => !decide (e.1 = k))) x =
      if x = k then none else lookupA xs x := by
  simpa [eraseA, decide_not] using lookupA_eraseA xs k x

theorem lru.containsK_put (l : lru K W) (k x : K) (v : W) :
    ((l.put k v).containsK x = true) ↔ (x = k ∨ l.containsK x = true) := by
  have hmain : ∀ xs : List (K × W),
      (containsA (xs.filter (fun e => !decide (e.1 = k)) ++ [(k, v)]) x = true)
        ↔ (x = k ∨ containsA xs x = true) := by
    intro xs
    by_cases hx : x = k
    · subst hx
      simp [containsA, lookupA_append_single, lookupA_filter_ne]
    · have hkx : ¬ (k = x) := fun h => hx h.symm
      simp only [containsA, lookupA_append_single, lookupA_filter_ne, hx,
        if_neg, hkx, not_false_iff]
      cases h : lookupA xs x <;> simp [hx]
  have hnew : ∀ xs : List (K × W),
      (containsA (xs ++ [(k, v)]) x = true) ↔ (x = k ∨ containsA xs x = true) := by
    intro xs
    by_cases hx : x = k
    · subst hx
      simp only [containsA, lookupA_append_single]
      cases h : lookupA xs x <;> simp
    · have hkx : ¬ (k = x) := fun h => hx h.symm
      simp only [containsA, lookupA_append_single, hx, false_or]
      cases h : lookupA xs x <;> simp [hkx]
  by_cases hc : containsA l.l k = true
  · simpa [lru.put, lru.containsK, hc] using hmain l.l
  · simpa [lru.put, lru.containsK, hc] using hnew l.l

theorem lru.containsK_removeOne (l : lru K W) (k x : K) :
    ((l.removeOne k).containsK x = true) ↔ (¬ x = k ∧ l.containsK x = true) := by
  by_cases hc : (lookupA l.l k).isSome = true
  · by_cases hx : x = k <;>
      simp [lru.removeOne, lru.containsK, containsA, lookupA_filter_ne, hc, hx]
  · by_cases hx : x = k
    · subst hx
      simp [lru.removeOne, lru.containsK, containsA, hc]
    · simp [lru.removeOne, lru.containsK, containsA, hc, hx]

theorem findLoop_eq_filter {K W : Type} (p : W → Bool) (xs : List (K × W)) :
    findLoop p xs = (xs.filter (fun e => p e.2)).map Prod.fst := by
  induction xs with
  | nil => simp [findLoop]
  | cons e rest ih =>
    by_cases hp : p e.2 <;> simp [findLoop, List.filter, hp, ih]

theorem eraseA_of_lookup_none {K : Type} [DecidableEq K] {W : Type}
    (l : List (K × W)) (k : K) (h : lookupA l k = none) : eraseA l k = l := by
  induction l with
  | nil => rfl
  | cons e rest ih =>
    by_cases he : e.1 = k
    · rw [lookupA, if_pos he] at h
      exact absurd h (by simp)
    · rw [lookupA, if_neg he] at h
      have hrw : eraseA (e :: rest) k = e :: eraseA rest k := by
        simp [eraseA, List.filter, he]
      rw [hrw, ih h]

theorem eraseA_cons_self {K : Type} [DecidableEq K] {W : Type}
    (e : K × W) (rest : List (K × W)) : eraseA (e :: rest) e.1 = eraseA rest e.1 := by
  simp [eraseA, List.filter]

theorem hexEncode_length (bs : List Nat) : (hexEncode bs).length = 2 * bs.length := by
  induction bs with
  | nil => rfl
  | cons b rest ih =>
    simp only [hexEncode, List.foldr, String.length, String.mk] at ih ⊢
    simp only [List.length_cons] at ih ⊢
    omega

theorem newSId_some (keys : List String) (gen : Nat → Option (List Nat)) :
    ∀ (fuel i : Nat) (sid : String), newSId keys gen fuel i = some sid →
      sid ≠ "" ∧ keys.contains sid = false ∧
      ∃ j bs, gen j = some bs ∧ sid = hexEncode bs := by
  intro fuel
  induction fuel with
  | zero => intro i sid h; exact absurd h (by simp [newSId])
  | succ fuel ih =>
    intro i sid h
    rw [newSId] at h
    by_cases h0 : randSId (gen i) ≠ ""
    · by_cases hc : keys.contains (randSId (gen i))
      · rw [if_pos h0, if_pos hc] at h
        exact ih (i + 1) sid h
      · rw [if_pos h0, if_neg hc] at h
        obtain rfl : randSId (gen i) = sid := by simpa using h
        refine ⟨h0, by simpa using hc, i, ?_⟩
        cases hg : gen i with
        | none =>
          rw [hg] at h0
          exact absurd (rfl : randSId none = "") h0
        | some bs => exact ⟨bs, rfl, rfl⟩
    · rw [if_neg h0] at h
      exact ih (i + 1) sid h

theorem newSId_allFail (keys : List String) (gen : Nat → Option (List Nat))
    (hfail : ∀ i, gen i = none) :
    ∀ (fuel i : Nat), newSId keys gen fuel i = none := by
  intro fuel
  induction fuel with
  | zero => intro i; rfl
  | succ fuel ih =>
    intro i
    rw [newSId, hfail i]
    have h0 : ¬ (randSId none ≠ "") := by simp [randSId]
    rw [if_neg h0]
    exact ih (i + 1)

theorem flushLoop_run (ops : StoreOps S V E) :
    ∀ (l sess : List (String × S)) (li : lru String Int),
      flushLoop ops l sess li =
        (((l.takeWhile (fun e => ((ops.expire e.2).2).isNone)).map
            Prod.fst).foldl (fun acc k => eraseA acc k) sess,
         li.remove ((l.takeWhile (fun e => ((ops.expire e.2).2).isNone)).map Prod.fst),
         match l.dropWhile (fun e => ((ops.expire e.2).2).isNone) with
         | [] => none
         | e :: _ => (ops.expire e.2).2) := by
  intro l
  induction l with
  | nil => intro sess li; rfl
  | cons e rest ih =>
    intro sess li
    cases hcase : (ops.expire e.2).2 with
    | some err =>
      simp only [flushLoop, hcase, List.takeWhile, List.dropWhile,
        Option.isNone_some, Bool.false_eq_true]
      rfl
    | none =>
      simp only [flushLoop, hcase, List.takeWhile, List.dropWhile, Option.isNone_none]
      simpa [lru.remove, List.foldl_cons] using ih (eraseA sess e.1) (li.removeOne e.1)

theorem foldl_erase_takeWhile (p : (String × S) → Bool) :
    ∀ l : List (String × S), (l.map Prod.fst).Nodup →
      ((l.takeWhile p).map Prod.fst).foldl (fun acc k => eraseA acc k) l =
        l.dropWhile p := by
  intro l
  induction l with
  | nil => intro _; rfl
  | cons e rest ih =>
    intro hnd
    simp only [List.map_cons, List.nodup_cons] at hnd
    obtain ⟨hnotin, hndrest⟩ := hnd
    cases hp : p e with
    | false => simp [List.takeWhile, List.dropWhile, hp]
    | true =>
      simp only [List.takeWhile, List.dropWhile, hp, List.map_cons, List.foldl_cons]
      have h1 : eraseA (e :: rest) e.1 = rest := by
        rw [eraseA_cons_self]
        apply eraseA_of_lookup_none
        cases hl : lookupA rest e.1 with
        | none => rfl
        | some w =>
          exfalso
          apply hnotin
          clear ih hnotin hndrest
          induction rest with
          | nil => exact absurd hl (by simp [lookupA])
          | cons f rfs ihh =>
            by_cases hf : f.1 = e.1
            · simp [hf]
            · rw [lookupA, if_neg hf] at hl
              simp [ihh hl]
      rw [h1, ih hndrest]

theorem mem_findLoop {K W : Type} (p : W → Bool) (k : K) (w : W) :
    ∀ xs : List (K × W), (k, w) ∈ xs → p w = true → k ∈ findLoop p xs := by
  intro xs
  induction xs with
  | nil => intro h; exact absurd h (by simp)
  | cons e rest ih =>
    intro hmem hp
    rcases List.mem_cons.1 hmem with rfl | hmem
    · simp [findLoop, hp]
    · cases hpe : p e.2 <;> simp [findLoop, hpe, ih hmem hp]

theorem lookupA_foldl_eraseA {K : Type} [DecidableEq K] {W : Type} (x : K) :
    ∀ (sids : List K) (sess : List (K × W)),
      (x ∈ sids ∨ lookupA sess x = none) →
      lookupA (sids.foldl (fun acc k => eraseA acc k) sess) x = none := by
  intro sids
  induction sids with
  | nil =>
    intro sess h
    rcases h with h | h
    · exact absurd h (by simp)
    · exact h
  | cons s rest ih =>
    intro sess h
    simp only [List.foldl_cons]
    by_cases hx : x ∈ rest
    · exact ih _ (Or.inl hx)
    · refine ih _ (Or.inr ?_)
      rcases h with h | h
      · rcases List.mem_cons.1 h with rfl | h
        · rw [lookupA_eraseA]; simp
        · exact absurd h hx
      · rw [lookupA_eraseA]
        simp [h]

theorem containsK_foldl_removeOne (x : String) :
    ∀ (sids : List String) (li : lru String Int),
      (x ∈ sids ∨ li.containsK x = false) →
      (sids.foldl lru.removeOne li).containsK x = false := by
  intro sids
  induction sids with
  | nil =>
    intro li h
    rcases h with h | h
    · exact absurd h (by simp)
    · exact h
  | cons s rest ih =>
    intro li h
    simp only [List.foldl_cons]
    by_cases hx : x ∈ rest
    · exact ih _ (Or.inl hx)
    · refine ih _ (Or.inr ?_)
      have hiff := lru.containsK_removeOne li s x
      rcases h with h | h
      · rcases List.mem_cons.1 h with hxs | h
        · revert hiff
          cases (li.removeOne s).containsK x <;> simp [hxs]
        · exact absurd h hx
      · revert hiff
        cases (li.removeOne s).containsK x <;> simp [h]

theorem opGet_state (ops : StoreOps S V E) (m : Session S) (sid key : String) :
    (Session.opGet ops m sid key).1 = m := by
  unfold Session.opGet
  by_cases h0 : sid = ""
  · simp [h0]
  · cases hc : lookupA m.sessions sid <;> simp [h0, hc]

end Lemmas

/-! ### The map/LRU lock-step invariant -/

section Sync

variable {S V E : Type}

theorem inSync_new_aux (provider : String → S) (initList : List (String × Int)) :
    ∀ (acc : List (String × S)) (li : lru String Int),
      (∀ x, containsA acc x = true ↔ li.containsK x = true) →
      ∀ x,
        containsA (initList.foldl (fun a p => insertA a p.1 (provider p.1)) acc) x = true ↔
        (initList.foldl (fun a p => a.put p.1 p.2) li).containsK x = true := by
  induction initList with
  | nil => intro acc li h x; exact h x
  | cons p rest ih =>
    intro acc li h x
    simp only [List.foldl_cons]
    refine ih _ _ (fun y => ?_) x
    rw [containsA_insertA, lru.containsK_put]
    exact or_congr Iff.rfl (h y)

theorem inSync_new (provider : String → S) (initList : List (String × Int)) :
    inSync (Session.new provider initList) := by
  intro x
  exact inSync_new_aux provider initList [] lru.new
    (fun y => by simp [containsA, lookupA, lru.new, lru.containsK]) x

theorem inSync_opSet (ops : StoreOps S V E) (provider : String → S)
    (gen : Nat → Option (List Nat)) (fuel : Nat) (now : Int)
    (m m' : Session S) (sid key : String) (v : V) (rsid : String) (err : Option E)
    (h : Session.opSet ops provider gen fuel now m sid key v = some (m', rsid, err))
    (hs : inSync m) : inSync m' := by
  by_cases hc : m.isClosed
  · simp only [Session.opSet, hc, if_pos, Option.some.injEq, Prod.mk.injEq] at h
    obtain ⟨h1, -, -⟩ := h
    exact h1 ▸ hs
  · simp only [Session.opSet, hc, if_neg, not_false_iff, Bool.false_eq_true] at h
    cases hcase : (if sid ≠ "" then lookupA m.sessions sid else none) with
    | some st =>
      rw [hcase] at h
      simp only [Option.some.injEq, Prod.mk.injEq] at h
      obtain ⟨h1, -, -⟩ := h
      subst h1
      intro x
      rw [containsA_insertA, lru.containsK_put]
      exact or_congr Iff.rfl (hs x)
    | none =>
      rw [hcase] at h
      cases hnew : newSId (m.sessions.map Prod.fst) gen fuel 0 with
      | none => rw [hnew] at h; exact absurd h (by simp)
      | some nsid =>
        rw [hnew] at h
        simp only [Option.some.injEq, Prod.mk.injEq] at h
        obtain ⟨h1, -, -⟩ := h
        subst h1
        intro x
        rw [containsA_insertA, lru.containsK_put]
        exact or_congr Iff.rfl (hs x)

theorem inSync_opDelete (ops : StoreOps S V E) (m : Session S) (sid key : String)
    (hs : inSync m) : inSync (Session.opDelete ops m sid key).1 := by
  unfold Session.opDelete
  by_cases h0 : sid = ""
  · simpa [h0] using hs
  · by_cases hc : m.isClosed
    · simpa [h0, hc] using hs
    · cases hcase : lookupA m.sessions sid with
      | some st =>
        simp only [h0, hc, hcase, if_neg, not_false_iff, Bool.false_eq_true]
        intro x
        rw [containsA_insertA]
        constructor
        · rintro (rfl | hx)
          · exact (hs x).1 (containsA_lookupA_some _ _ _ hcase)
          · exact (hs x).1 hx
        · intro hx
          exact Or.inr ((hs x).2 hx)
      | none => simpa [h0, hc, hcase] using hs

theorem inSync_opUpdate (ops : StoreOps S V E) (m : Session S) (sid : String)
    (hs : inSync m) : inSync (Session.opUpdate ops m sid).1 := by
  unfold Session.opUpdate
  by_cases h0 : sid = ""
  · simpa [h0] using hs
  · by_cases hc : m.isClosed
    · simpa [h0, hc] using hs
    · cases hcase : lookupA m.sessions sid with
      | some st =>
        simp only [h0, hc, hcase, if_neg, not_false_iff, Bool.false_eq_true]
        intro x
        rw [containsA_insertA]
        constructor
        · rintro (rfl | hx)
          · exact (hs x).1 (containsA_lookupA_some _ _ _ hcase)
          · exact (hs x).1 hx
        · intro hx
          exact Or.inr ((hs x).2 hx)
      | none => simpa [h0, hc, hcase] using hs

theorem inSync_opExpire (ops : StoreOps S V E) (m : Session S) (sid : String)
    (hs : inSync m) : inSync (Session.opExpire ops m sid).1 := by
  unfold Session.opExpire
  by_cases h0 : sid = ""
  · simpa [h0] using hs
  · by_cases hc : m.isClosed
    · simpa [h0, hc] using hs
    · simp only [h0, hc, if_neg, not_false_iff, Bool.false_eq_true]
      intro x
      rw [containsA_eraseA, lru.containsK_removeOne]
      exact and_congr Iff.rfl (hs x)

theorem inSync_flushLoop (ops : StoreOps S V E) :
    ∀ (l sess : List (String × S)) (li : lru String Int),
      (∀ x, containsA sess x = true ↔ li.containsK x = true) →
      ∀ x,
        containsA (flushLoop ops l sess li).1 x = true ↔
        (flushLoop ops l sess li).2.1.containsK x = true := by
  intro l
  induction l with
  | nil => intro sess li h x; exact h x
  | cons e rest ih =>
    intro sess li h x
    cases hcase : (ops.expire e.2).2 with
    | some err => simp only [flushLoop, hcase]; exact h x
    | none =>
      simp only [flushLoop, hcase]
      refine ih _ _ (fun y => ?_) x
      rw [containsA_eraseA, lru.containsK_removeOne]
      exact and_congr Iff.rfl (h y)

theorem inSync_opFlush (ops : StoreOps S V E) (m : Session S)
    (hs : inSync m) : inSync (Session.opFlush ops m).1 := by
  unfold Session.opFlush
  by_cases hc : m.isClosed
  · simpa [hc] using hs
  · simp only [hc, if_neg, not_false_iff, Bool.false_eq_true]
    exact inSync_flushLoop ops m.sessions m.sessions m.lruIdx hs

theorem gcFold_eq_erase (ops : StoreOps S V E) (sids : List String) :
    ∀ sess : List (String × S),
      sids.foldl (fun acc sid =>
        (match lookupA acc sid with
         | some st => (fun _ => eraseA acc sid) (ops.expire st).2
         | none => eraseA acc sid)) sess =
      sids.foldl (fun acc sid => eraseA acc sid) sess := by
  induction sids with
  | nil => intro sess; rfl
  | cons s rest ih =>
    intro sess
    simp only [List.foldl_cons]
    have hstep : (match lookupA sess s with
        | some st => (fun _ => eraseA sess s) (ops.expire st).2
        | none => eraseA sess s) = eraseA sess s := by
      cases lookupA sess s <;> rfl
    rw [hstep, ih]

theorem inSync_foldErase (sids : List String) :
    ∀ (sess : List (String × S)) (li : lru String Int),
      (∀ x, containsA sess x = true ↔ li.containsK x = true) →
      ∀ x,
        containsA (sids.foldl (fun acc sid => eraseA acc sid) sess) x = true ↔
        (sids.foldl lru.removeOne li).containsK x = true := by
  induction sids with
  | nil => intro sess li h x; exact h x
  | cons s rest ih =>
    intro sess li h x
    simp only [List.foldl_cons]
    refine ih _ _ (fun y => ?_) x
    rw [containsA_eraseA, lru.containsK_removeOne]
    exact and_congr Iff.rfl (h y)

theorem inSync_gcTick (ops : StoreOps S V E) (lifeTime t : Int) (m : Session S)
    (hs : inSync m) : inSync (Session.gcTick ops lifeTime t m) := by
  unfold Session.gcTick
  by_cases hc : m.isClosed
  · simpa [hc] using hs
  · simp only [hc, if_neg, not_false_iff, Bool.false_eq_true]
    intro x
    rw [gcFold_eq_erase ops]
    exact inSync_foldErase _ m.sessions m.lruIdx hs x

end Sync

/-! ### The claims -/

section Claims

variable {S V E : Type}

theorem lru.removeOne_of_not_contains {K W : Type} [DecidableEq K]
    (li : lru K W) (k : K) (h : li.containsK k = false) : li.removeOne k = li := by
  unfold lru.removeOne
  rw [if_neg (by simp [h])]

/-- C9: `findExpiredItems` evaluates the predicate on every entry's value,
scanning from front to back without short-circuiting on a non-match, and
returns exactly the keys whose values satisfy it (the key list of the
filtered entry list, in scan order); on the scenario of five old ids, four
fresh ids and three of the old ids re-put fresh, the predicate "elapsed
greater than 5 seconds" selects exactly the two old ids never re-put. -/
theorem findExpiredItems_spec :
    (∀ (l : lru String Int) (p : Int → Bool),
        l.findExpiredItems p = (l.l.filter (fun e => p e.2)).map Prod.fst) ∧
    lruScenario.findExpiredItems (fun v => decide (5001 - v > 5000)) =
      ["sessionid2", "sessionid5"] := by
  refine ⟨fun l p => findLoop_eq_filter p l.l, ?_⟩
  rfl

/-- C3: on an open manager, `Expire(sid)` for a live non-empty `sid` invokes
the handle's `Expire`, removes `sid` from both the live-session map and the
LRU index even when that call reports an error, and returns the handle's
error unchanged. -/
theorem Expire_removes_and_reports (ops : StoreOps S V E) (m : Session S)
    (sid : String) (st : S)
    (hopen : m.isClosed = false) (hsid : sid ≠ "")
    (hlive : lookupA m.sessions sid = some st) :
    Session.opExpire ops m sid =
      ({ m with
          sessions := eraseA m.sessions sid
          lruIdx := m.lruIdx.removeOne sid }, (ops.expire st).2) ∧
    lookupA (Session.opExpire ops m sid).1.sessions sid = none ∧
    (Session.opExpire ops m sid).1.lruIdx.containsK sid = false := by
  have heq : Session.opExpire ops m sid =
      ({ m with
          sessions := eraseA m.sessions sid
          lruIdx := m.lruIdx.removeOne sid }, (ops.expire st).2) := by
    unfold Session.opExpire
    rw [if_neg hsid, if_neg (by simp [hopen]), hlive]
  refine ⟨heq, ?_, ?_⟩
  · rw [heq]
    simpa using lookupA_eraseA m.sessions sid sid
  · rw [heq]
    have hiff := lru.containsK_removeOne m.lruIdx sid sid
    revert hiff
    cases (m.lruIdx.removeOne sid).containsK sid <;> simp

/-- Witness for C3: on the flag backend, expiring the single live session
`"a"` (whose `Expire` errs) still clears the map and the LRU index and
reports the error. -/
theorem Expire_removes_and_reports_witness :
    Session.opExpire flagOps mFlag1 "a" =
      ({ mFlag1 with
          sessions := eraseA mFlag1.sessions "a"
          lruIdx := mFlag1.lruIdx.removeOne "a" }, (flagOps.expire true).2) ∧
    lookupA (Session.opExpire flagOps mFlag1 "a").1.sessions "a" = none ∧
    (Session.opExpire flagOps mFlag1 "a").1.lruIdx.containsK "a" = false :=
  Expire_removes_and_reports flagOps mFlag1 "a" true rfl (by decide) rfl

/-- C5 counterexample: on the open manager `mOne` (one live id `"a"`, LRU
touch time 0) a successful `Update("a")` leaves the LRU index with the same
single entry `("a", 0)`: the recorded recency is not refreshed (the code of
`Update` never touches the LRU index and takes no current-time input), which
refutes "refreshes ... the session's LRU recency". -/
theorem Update_lru_unchanged_cex :
    (Session.opUpdate memOps mOne "a").1.lruIdx.l = [("a", 0)] ∧
    (Session.opUpdate memOps mOne "a").2 = none :=
  ⟨rfl, rfl⟩

/-- C5 (amended): `Update(sid)` on an open manager refreshes only the
backend's own liveness marker and never the LRU index: the LRU index is
returned unchanged in every case; for a live `sid` the handle's `Update` is
invoked, the updated handle stored back and its error returned unchanged;
for an empty or unknown `sid` the call is a no-op returning a nil error. -/
theorem Update_spec (ops : StoreOps S V E) (m : Session S) (sid : String)
    (hopen : m.isClosed = false) :
    ((Session.opUpdate ops m sid).1.lruIdx = m.lruIdx) ∧
    ((sid = "" ∨ lookupA m.sessions sid = none) →
      Session.opUpdate ops m sid = (m, none)) ∧
    (∀ st, sid ≠ "" → lookupA m.sessions sid = some st →
      Session.opUpdate ops m sid =
        ({ m with sessions := insertA m.sessions sid (ops.update st).1 },
         (ops.update st).2)) := by
  refine ⟨?_, ?_, ?_⟩
  · unfold Session.opUpdate
    by_cases h0 : sid = ""
    · simp [h0]
    · cases hc : lookupA m.sessions sid <;> simp [h0, hopen, hc]
  · intro h
    unfold Session.opUpdate
    rcases h with h0 | hn
    · simp [h0]
    · by_cases h0 : sid = ""
      · simp [h0]
      · simp [h0, hopen, hn]
  · intro st h0 hl
    unfold Session.opUpdate
    rw [if_neg h0, if_neg (by simp [hopen]), hl]

/-- Witness for C5 (amended) on the model backend with one live session. -/
theorem Update_spec_witness :
    ((Session.opUpdate memOps mOne "a").1.lruIdx = mOne.lruIdx) ∧
    (("a" = "" ∨ lookupA mOne.sessions "a" = none) →
      Session.opUpdate memOps mOne "a" = (mOne, none)) ∧
    (∀ st, "a" ≠ "" → lookupA mOne.sessions "a" = some st →
      Session.opUpdate memOps mOne "a" =
        ({ mOne with sessions := insertA mOne.sessions "a" (memOps.update st).1 },
         (memOps.update st).2)) :=
  Update_spec memOps mOne "a" rfl

/-- C6 (code bug): every operation except `Get` goes through `do`, so on the
closed manager `mClosed` it is a no-op returning zero values; but `Get` is
not guarded by the closed flag — despite its own comment "if session is
closed, do nothing" — and still reads the live handle, returning the stored
value 7 instead of the nil zero value. -/
theorem Get_after_close_returns_value :
    mClosed.isClosed = true ∧
    (Session.opGet memOps mClosed "a" "k").2 = some 7 ∧
    Session.opSet memOps memProvider genZeros 1 0 mClosed "x" "k" 9 =
      some (mClosed, "", none) ∧
    Session.opDelete memOps mClosed "a" "k" = (mClosed, none) ∧
    Session.opUpdate memOps mClosed "a" = (mClosed, none) ∧
    Session.opExpire memOps mClosed "a" = (mClosed, none) ∧
    Session.opFlush memOps mClosed = (mClosed, none) :=
  ⟨rfl, rfl, rfl, rfl, rfl, rfl, rfl⟩

/-- C7 counterexample: `Set` with the empty id on the open empty manager is
not a no-op: the minting branch runs, a fresh id is returned and the
live-session map and LRU index each gain an entry — a session is created,
refuting the claim's inclusion of `Set` among the empty/unknown-id
no-ops. -/
theorem Set_empty_id_creates_session_cex :
    Session.opSet memOps memProvider genZeros 1 0 mEmpty "" "k" 7 =
      some (⟨[(sidZeros, [("k", 7)])], ⟨[(sidZeros, 0)]⟩, false⟩, sidZeros, none) :=
  rfl

/-- C7 (amended): for `Get`, `Delete`, `Update` and `Expire` — but not
`Set`, which instead mints a fresh session — a call on an open manager with
an empty id, or with an id unknown to both the live-session map and the LRU
index, is a defined silent no-op: the state is returned unchanged and the
error is nil (for `Get`, the value is absent). -/
theorem emptyUnknown_noop (ops : StoreOps S V E) (m : Session S) (sid key : String)
    (hopen : m.isClosed = false)
    (hunk : sid = "" ∨
      (lookupA m.sessions sid = none ∧ m.lruIdx.containsK sid = false)) :
    Session.opGet ops m sid key = (m, none) ∧
    Session.opDelete ops m sid key = (m, none) ∧
    Session.opUpdate ops m sid = (m, none) ∧
    Session.opExpire ops m sid = (m, none) := by
  rcases hunk with h0 | ⟨hn, hk⟩
  · exact ⟨by simp [Session.opGet, h0], by simp [Session.opDelete, h0],
      by simp [Session.opUpdate, h0], by simp [Session.opExpire, h0]⟩
  · refine ⟨?_, ?_, ?_, ?_⟩
    · unfold Session.opGet
      by_cases h0 : sid = "" <;> simp [h0, hn]
    · unfold Session.opDelete
      by_cases h0 : sid = "" <;> simp [h0, hopen, hn]
    · unfold Session.opUpdate
      by_cases h0 : sid = "" <;> simp [h0, hopen, hn]
    · unfold Session.opExpire
      by_cases h0 : sid = ""
      · simp [h0]
      · rw [if_neg h0, if_neg (by simp [hopen]), hn,
          eraseA_of_lookup_none m.sessions sid hn,
          lru.removeOne_of_not_contains m.lruIdx sid hk]

/-- Witness for C7 (amended): the id `"zzz"` is unknown to the one-session
manager `mOne`, and all four operations are silent no-ops there. -/
theorem emptyUnknown_noop_witness :
    Session.opGet memOps mOne "zzz" "k" = (mOne, none) ∧
    Session.opDelete memOps mOne "zzz" "k" = (mOne, none) ∧
    Session.opUpdate memOps mOne "zzz" = (mOne, none) ∧
    Session.opExpire memOps mOne "zzz" = (mOne, none) :=
  emptyUnknown_noop memOps mOne "zzz" "k" rfl (Or.inr ⟨rfl, rfl⟩)

/-- C1: on an open manager, if `Set("", k, v)` completes, returning a fresh
id `sid` and a nil error, then — provided the backend satisfies the store
contract, i.e. a fresh handle's `Get k` after `Set k v` yields `v` — an
immediate `Get(sid, k)` returns `v`. -/
theorem Set_Get_roundtrip (ops : StoreOps S V E) (provider : String → S)
    (gen : Nat → Option (List Nat)) (fuel : Nat) (now : Int)
    (m m' : Session S) (k : String) (v : V) (sid : String) (err : Option E)
    (hopen : m.isClosed = false)
    (hlaw : ∀ nsid key val, ops.get (ops.set (provider nsid) key val).1 key = some val)
    (hset : Session.opSet ops provider gen fuel now m "" k v = some (m', sid, err))
    (herr : err = none) :
    (Session.opGet ops m' sid k).2 = some v := by
  unfold Session.opSet at hset
  rw [if_neg (by simp [hopen])] at hset
  rw [show (if ("" : String) ≠ "" then lookupA m.sessions "" else none) = none by
    simp] at hset
  cases hnew : newSId (m.sessions.map Prod.fst) gen fuel 0 with
  | none =>
    rw [hnew] at hset
    exact absurd hset (by simp)
  | some nsid =>
    rw [hnew] at hset
    have hset2 : (({ m with
          sessions := insertA m.sessions nsid (ops.set (provider nsid) k v).1
          lruIdx := m.lruIdx.put nsid now } : Session S), nsid,
          (ops.set (provider nsid) k v).2) = (m', sid, err) := by
      exact Option.some.inj hset
    obtain ⟨h1, h2, h3⟩ : _ ∧ nsid = sid ∧ _ := by
      simpa [Prod.mk.injEq] using hset2
    obtain ⟨hne, -, -⟩ := newSId_some (m.sessions.map Prod.fst) gen fuel 0 nsid hnew
    subst h2
    rw [← h1]
    unfold Session.opGet
    rw [if_neg hne]
    rw [show lookupA (insertA m.sessions nsid (ops.set (provider nsid) k v).1) nsid =
        some (ops.set (provider nsid) k v).1 by
      rw [lookupA_insertA]; simp]
    exact hlaw nsid k v

/-- Witness for C1: a concrete `Set` on the empty manager followed by the
`Get` of the fresh id. -/
theorem Set_Get_roundtrip_witness :
    (Session.opGet memOps
      (⟨[(sidZeros, [("k", 7)])], ⟨[(sidZeros, 0)]⟩, false⟩ :
        Session (List (String × Nat))) sidZeros "k").2 = some 7 :=
  Set_Get_roundtrip memOps memProvider genZeros 1 0 mEmpty
    ⟨[(sidZeros, [("k", 7)])], ⟨[(sidZeros, 0)]⟩, false⟩ "k" 7 sidZeros none rfl
    (fun nsid key val => by simp [memOps, memProvider, insertA, lookupA]) rfl rfl

/-- C4: on an open manager, `Flush` walks the live sessions in iteration
order, expiring each and deleting it from the map and the LRU index, and
stops at the first handle error, returning it: the surviving map is the
suffix from the first failing session on (everything expired before it stays
removed — no rollback), the LRU index loses exactly the keys of the expired
prefix, and when no handle errs the map is emptied and nil is returned. -/
theorem Flush_spec (ops : StoreOps S V E) (m : Session S)
    (hopen : m.isClosed = false)
    (hnd : (m.sessions.map Prod.fst).Nodup) :
    Session.opFlush ops m =
      ({ m with
          sessions := m.sessions.dropWhile (fun e => ((ops.expire e.2).2).isNone)
          lruIdx := m.lruIdx.remove
            ((m.sessions.takeWhile
              (fun e => ((ops.expire e.2).2).isNone)).map Prod.fst) },
       match m.sessions.dropWhile (fun e => ((ops.expire e.2).2).isNone) with
       | [] => none
       | e :: _ => (ops.expire e.2).2) := by
  unfold Session.opFlush
  rw [if_neg (by simp [hopen])]
  rw [flushLoop_run ops m.sessions m.sessions m.lruIdx]
  rw [foldl_erase_takeWhile _ m.sessions hnd]

/-- Witness for C4 on the flag backend: `"a"` expires cleanly and stays
removed, `"b"` errs and survives with its error reported, `"c"` is never
reached. -/
theorem Flush_spec_witness :
    Session.opFlush flagOps mFlags =
      ((⟨[("b", true), ("c", false)], ⟨[("b", 1), ("c", 2)]⟩, false⟩ : Session Bool),
        some ()) := by
  have h := Flush_spec flagOps mFlags rfl (by decide)
  exact h

/-- C8: id minting never degrades — `randSId` answers the failure to fill
the buffer with the empty sentinel, never a short or weak id; if the random
source never fills the buffer, `newSId` completes within no bound (the
operation never finishes: it is fatal for the `Set` in progress); and every
id `newSId` does return is the hex rendering of a fully-filled
`_SID_LENGTH`-byte buffer (so has the full length `2 * _SID_LENGTH`), is
non-empty, and collides with no live id.  The hypothesis is the
`crypto/rand` contract: a successful read fills the whole buffer. -/
theorem minting_never_degrades (keys : List String) (gen : Nat → Option (List Nat))
    (hlen : ∀ i bs, gen i = some bs → bs.length = SID_LENGTH) :
    randSId none = "" ∧
    ((∀ i, gen i = none) → ∀ fuel i, newSId keys gen fuel i = none) ∧
    (∀ fuel i sid, newSId keys gen fuel i = some sid →
        sid.length = 2 * SID_LENGTH ∧ sid ≠ "" ∧ keys.contains sid = false) := by
  refine ⟨rfl, fun hfail fuel i => newSId_allFail keys gen hfail fuel i, ?_⟩
  intro fuel i sid h
  obtain ⟨hne, hcon, j, bs, hg, rfl⟩ := newSId_some keys gen fuel i sid h
  exact ⟨by rw [hexEncode_length, hlen j bs hg], hne, hcon⟩

/-- Witness for C8 with the always-failing random source and no live ids. -/
theorem minting_never_degrades_witness :
    randSId none = "" ∧
    ((∀ i, genFail i = none) → ∀ fuel i, newSId [] genFail fuel i = none) ∧
    (∀ fuel i sid, newSId [] genFail fuel i = some sid →
        sid.length = 2 * SID_LENGTH ∧ sid ≠ "" ∧ List.contains [] sid = false) :=
  minting_never_degrades [] genFail (fun i bs h => by simp [genFail] at h)

/-- C10: `Get` writes nothing — the manager state it returns is its
receiver, so the LRU index keeps the same entries, order and touch times;
consequently a session that is only ever read keeps its recorded touch time
`t0`, and once a sweep tick runs at a time `t` with `t - t0 > lifeTime` the
session is expired: gone from the live-session map and from the LRU
index. -/
theorem Get_never_refreshes (ops : StoreOps S V E) (m : Session S)
    (sid key : String) (lifeTime t t0 : Int)
    (hopen : m.isClosed = false)
    (hentry : (sid, t0) ∈ m.lruIdx.l)
    (hstale : t - t0 > lifeTime) :
    ((Session.opGet ops m sid key).1 = m) ∧
    lookupA (Session.gcTick ops lifeTime t m).sessions sid = none ∧
    (Session.gcTick ops lifeTime t m).lruIdx.containsK sid = false := by
  have hmem : sid ∈ m.lruIdx.findExpiredItems (fun v => decide (t - v > lifeTime)) :=
    mem_findLoop _ sid t0 m.lruIdx.l hentry (decide_eq_true hstale)
  refine ⟨opGet_state ops m sid key, ?_, ?_⟩
  · show lookupA (Session.gcTick ops lifeTime t m).sessions sid = none
    unfold Session.gcTick
    rw [if_neg (by simp [hopen])]
    show lookupA
      ((m.lruIdx.findExpiredItems (fun v => decide (t - v > lifeTime))).foldl
        (fun acc sid =>
          (match lookupA acc sid with
           | some st => (fun _ => eraseA acc sid) (ops.expire st).2
           | none => eraseA acc sid)) m.sessions) sid = none
    rw [gcFold_eq_erase ops _ m.sessions]
    exact lookupA_foldl_eraseA sid _ m.sessions (Or.inl hmem)
  · unfold Session.gcTick
    rw [if_neg (by simp [hopen])]
    show ((m.lruIdx.findExpiredItems
        (fun v => decide (t - v > lifeTime))).foldl lru.removeOne
        m.lruIdx).containsK sid = false
    exact containsK_foldl_removeOne sid _ m.lruIdx (Or.inl hmem)

/-- Witness for C10 on the one-session manager: the stale session `"a"`
survives the `Get` untouched and is expired by the sweep tick. -/
theorem Get_never_refreshes_witness :
    ((Session.opGet memOps mOne "a" "k").1 = mOne) ∧
    lookupA (Session.gcTick memOps 5 100 mOne).sessions "a" = none ∧
    (Session.gcTick memOps 5 100 mOne).lruIdx.containsK "a" = false :=
  Get_never_refreshes memOps mOne "a" "k" 5 100 0 rfl (by simp [mOne]) (by decide)

/-- C2: in every state reachable by construction followed by any sequence of
`Set`, `Delete`, `Update`, `Expire`, `Flush`, sweep ticks (and `Close`), a
session id is a key of the live-session map iff it is a key of the LRU
index. -/
theorem map_lru_lockstep (ops : StoreOps S V E) (provider : String → S)
    (m : Session S) (hr : Reachable ops provider m) :
    ∀ sid, containsA m.sessions sid = true ↔ m.lruIdx.containsK sid = true := by
  induction hr with
  | init initList => exact inSync_new provider initList
  | step_set gen fuel now sid key v hm h ih =>
    exact inSync_opSet ops provider gen fuel now _ _ sid key v _ _ h ih
  | step_delete sid key hm ih => exact inSync_opDelete ops _ sid key ih
  | step_update sid hm ih => exact inSync_opUpdate ops _ sid ih
  | step_expire sid hm ih => exact inSync_opExpire ops _ sid ih
  | step_flush hm ih => exact inSync_opFlush ops _ ih
  | step_gc lifeTime t hm ih => exact inSync_gcTick ops lifeTime t _ ih
  | step_close hm ih => exact ih

/-- Witness for C2 at a freshly constructed manager recovering one
session. -/
theorem map_lru_lockstep_witness :
    containsA (Session.new memProvider [("a", 5)]).sessions "a" = true ↔
      (Session.new memProvider [("a", 5)]).lruIdx.containsK "a" = true :=
  map_lru_lockstep memOps memProvider _ (Reachable.init [("a", 5)]) "a"

end Claims

end SessionRepo
